import Mathlib

/-!
Shallow embedding of the LearnSphere client logic (src/index.tsx) needed to
settle the frozen claims: the quiz grading engine (`handleSubmit` in
`QuizRunner`), the flashcard spaced-repetition driver (`FlashcardView` /
`FlashcardTestView.handleAnswer`), the topic-selection handlers
(`TopicSelectionStep`), and the markdown-subset renderer
(`FormattedContent` / `formatLine`).

JavaScript arrays become `List`, the `userAnswers` index-keyed object becomes
a function `Nat → Option (List String)`, and `Math.random()`-derived indices
become nondeterministic `Nat` parameters constrained to exactly the values
the floating-point expression can produce.
-/

namespace LearnSphere

/-! ## Data model (src/index.tsx lines 12-36) -/

/-- Source: `type QuizType = 'mcq_single' | 'mcq_multiple' | 'subjective_short'`. -/
inductive QuizType where
  | mcq_single
  | mcq_multiple
  | subjective_short
deriving DecidableEq, Repr

/-- Source: `type QuizQuestion = { question; options?; answer; type; explanation }`. -/
structure QuizQuestion where
  question : String
  options : Option (List String)
  answer : List String
  type : QuizType
  explanation : String
deriving DecidableEq, Repr

/-- Source: `type Quiz = { title; questions; swotAnalysis }`. -/
structure Quiz where
  title : String
  questions : List QuizQuestion
  swotAnalysis : String
deriving DecidableEq, Repr

/-- Source: `type Flashcard = { question: string; answer: string }`. -/
structure Flashcard where
  question : String
  answer : String
deriving DecidableEq, Repr, Inhabited

/-- Source: `type TopicSelection = { unit: string | null; topics: string[] }`. -/
structure TopicSelection where
  unit : Option String
  topics : List String
deriving DecidableEq, Repr

/-! ## Quiz grading (`handleSubmit`, src/index.tsx lines 888-916)

JavaScript `Array.prototype.sort()` on an array of strings sorts it in place
into lexicographic order; we embed it as Mathlib's `insertionSort` with the
linear order on `String` (the claims only depend on the result being the
canonical sorted permutation).  `JSON.stringify(a) === JSON.stringify(b)` on
two string arrays holds exactly when the arrays are equal as lists. -/

/-- Lexicographic comparison of character lists by code point, embedding the
string comparison JavaScript's default `Array.prototype.sort` comparator
performs (they agree on all inputs the claims involve; JavaScript compares
UTF-16 code units, which coincides with code-point order on strings without
astral characters). -/
def charListLe : List Char → List Char → Bool
  | [], _ => true
  | _ :: _, [] => false
  | a :: as, b :: bs =>
    if a.toNat = b.toNat then charListLe as bs
    else decide (a.toNat < b.toNat)

/-- The comparison as a relation on strings. -/
def strLe (a b : String) : Prop := charListLe a.data b.data = true

instance (a b : String) : Decidable (strLe a b) := by
  unfold strLe; infer_instance

/-- Embeds `arr.sort()` for a string array: the sorted-into-lexicographic-order
permutation of the array. -/
def jsSortStrings (l : List String) : List String :=
  l.insertionSort strLe

/-- Outcome of `handleSubmit`'s grading loop: the computed score, the
`incorrectQuestions` accumulator, and (because `q.answer.sort()` sorts each
question's answer array in place) the list of question objects as they stand
after the loop ran. -/
structure GradeOutcome where
  score : Nat
  incorrectQuestions : List QuizQuestion
  mutatedQuestions : List QuizQuestion
deriving DecidableEq, Repr

/-- Effect of `q.answer.sort()` on the question object `q` itself: its answer
array is now the sorted permutation. -/
def sortAnswerInPlace (q : QuizQuestion) : QuizQuestion :=
  { q with answer := jsSortStrings q.answer }

/-- Embeds the `quiz.questions.forEach((q, i) => ...)` grading loop starting
at question index `i`:
`correctAnswers = q.answer.sort(); givenAnswers = (userAnswers[i] || []).sort();`
then `JSON.stringify` comparison decides score increment versus
`incorrectQuestions.push(q)` (pushing the mutated `q`).  The in-place sort of
`userAnswers[i]` has no further observable effect and is not tracked. -/
def gradeFrom (userAnswers : Nat → Option (List String)) : Nat → List QuizQuestion → GradeOutcome
  | _, [] => ⟨0, [], []⟩
  | i, q :: rest =>
    let correctAnswers := jsSortStrings q.answer
    let givenAnswers := jsSortStrings ((userAnswers i).getD [])
    let q2 := { q with answer := correctAnswers }
    let o := gradeFrom userAnswers (i + 1) rest
    if correctAnswers = givenAnswers then
      ⟨o.score + 1, o.incorrectQuestions, q2 :: o.mutatedQuestions⟩
    else
      ⟨o.score, q2 :: o.incorrectQuestions, q2 :: o.mutatedQuestions⟩

/-- Grading a whole quiz: the loop from index 0 over `quiz.questions`. -/
def gradeQuiz (quiz : Quiz) (userAnswers : Nat → Option (List String)) : GradeOutcome :=
  gradeFrom userAnswers 0 quiz.questions

/-- The quiz value as it stands after `handleSubmit` ran: same title and SWOT
text, but every question object has had `q.answer.sort()` applied in place. -/
def gradedQuiz (quiz : Quiz) (userAnswers : Nat → Option (List String)) : Quiz :=
  { quiz with questions := (gradeQuiz quiz userAnswers).mutatedQuestions }

/-- The fixed degradation message of the `catch` branch of the
personalized-suggestions request.  The branch is dead code in the shipped
app: the guard before the `try` throws first (see `handleSubmitRun`). -/
def fallbackMsg : String := "Could not generate personalized suggestions at this time."

/-- The component state that `handleSubmit` commits: `results` (score and
incorrect list), the `submitted` flag, and `personalizedSuggestions`. -/
structure SubmitResult where
  score : Nat
  incorrectQuestions : List QuizQuestion
  submitted : Bool
  personalizedSuggestions : String
deriving DecidableEq, Repr

/-- State after `setResults({score, incorrectQuestions}); setSubmitted(true);`
— i.e. after the score and breakdown are committed but before the secondary
suggestions request runs (`personalizedSuggestions` still holds its initial
`''`). -/
def submitCommit (quiz : Quiz) (userAnswers : Nat → Option (List String)) : SubmitResult :=
  let o := gradeQuiz quiz userAnswers
  ⟨o.score, o.incorrectQuestions, true, ""⟩

/-- How a run of `handleSubmit` ends after the commit: whether the guard
threw and whether the secondary request was ever issued. -/
structure SubmitRun where
  committed : SubmitResult
  threwReferenceError : Bool
  suggestionsRequestIssued : Bool
deriving DecidableEq, Repr

/-- Embeds the rest of `handleSubmit` after the commit.  The guard
`if (incorrectQuestions.length > 0 && ai)` short-circuits when the incorrect
list is empty, and the function returns normally.  When it is non-empty the
right operand `ai` is evaluated — but `ai` has no declaration in scope in
`QuizRunner`: the only `ai` bindings in the file are `const`s local to
`FeynmanTechniqueModule` and `StudyPlanner`, and no module-level or global
`ai` exists.  Evaluating it throws a ReferenceError outside the try/catch,
aborting the run: the suggestions request is never issued, neither a
response nor `fallbackMsg` is ever stored (`personalizedSuggestions` keeps
its initial `''`), and the already-committed results stand. -/
def handleSubmitRun (quiz : Quiz) (userAnswers : Nat → Option (List String)) : SubmitRun :=
  let c := submitCommit quiz userAnswers
  ⟨c, !c.incorrectQuestions.isEmpty, false⟩

/-! ## Flashcard spaced-repetition driver
(`FlashcardView` / `FlashcardTestView`, src/index.tsx lines 1024-1096) -/

/-- Embeds the flashcard test state
`{ cardsToTest, masteredCards, currentIndex, showAnswer }` (the `active` flag
is represented by being in this state at all). -/
structure TestState where
  cardsToTest : List Flashcard
  masteredCards : List Flashcard
  currentIndex : Nat
  showAnswer : Bool
deriving DecidableEq, Repr

/-- Embeds `arr.splice(i, 1)`: the array with the element at index `i`
removed (no change when `i` is out of range, as in JavaScript). -/
def removeAt (l : List α) (i : Nat) : List α :=
  l.take i ++ l.drop (i + 1)

/-- Embeds `arr.splice(i, 0, x)`: insert `x` at index `i`, clamping an
out-of-range index to the end of the array, as JavaScript does. -/
def insertAt (l : List α) (i : Nat) (x : α) : List α :=
  l.take i ++ x :: l.drop i

/-- Starting a test: `setTestState({ active: true, cardsToTest: shuffled,
masteredCards: [], currentIndex: 0, showAnswer: false })`.  The shuffle
`[...flashcards].sort(() => Math.random() - 0.5)` always yields some
permutation of the deck; the permuted list is passed in and constrained by a
`Perm` hypothesis at the theorem level. -/
def startTest (shuffled : List Flashcard) : TestState :=
  ⟨shuffled, [], 0, false⟩

/-- The insertion index computed for a "needs review" card:
`Math.floor(cardsToTest.length / 2) + Math.floor(Math.random() * (cardsToTest.length / 2))`
where `len` is the pending length after the splice removal and `rand` stands
for the value of `Math.floor(Math.random() * (len / 2))`. -/
def reviewInsertIdx (len rand : Nat) : Nat :=
  len / 2 + rand

/-- The exact set of values `Math.floor(Math.random() * (len / 2))` can take
for `Math.random() ∈ [0, 1)`: the integers below `len / 2` rounded up, and
just `0` when `len = 0`. -/
def validRand (len rand : Nat) : Prop :=
  rand < max ((len + 1) / 2) 1

instance (len rand : Nat) : Decidable (validRand len rand) := by
  unfold validRand; infer_instance

/-- A button press in the test view: `handleAnswer(true)` ("I Knew It!") or
`handleAnswer(false)` ("Needs Review") with the random draw made explicit. -/
inductive Answer where
  | knewIt
  | needsReview (rand : Nat)

/-- Embeds `handleAnswer` (src/index.tsx lines 1056-1071).  The completion
view replaces the test view when `cardsToTest.length === 0`, so no transition
fires on an empty pending list (identity).  Otherwise:
`knewIt` splices the current card out and appends it to `masteredCards`;
`needsReview` splices it out and reinserts it at `reviewInsertIdx`;
both then apply `if (currentIndex >= cardsToTest.length) currentIndex = 0`
against the new pending list and reset `showAnswer`. -/
def handleAnswer (s : TestState) (a : Answer) : TestState :=
  if s.cardsToTest.isEmpty then s
  else
    match a with
    | .knewIt =>
      let card := s.cardsToTest.getD s.currentIndex default
      let rest := removeAt s.cardsToTest s.currentIndex
      { cardsToTest := rest
        masteredCards := s.masteredCards ++ [card]
        currentIndex := if rest.length ≤ s.currentIndex then 0 else s.currentIndex
        showAnswer := false }
    | .needsReview rand =>
      let card := s.cardsToTest.getD s.currentIndex default
      let rest := removeAt s.cardsToTest s.currentIndex
      let newPending := insertAt rest (reviewInsertIdx rest.length rand) card
      { cardsToTest := newPending
        masteredCards := s.masteredCards
        currentIndex := if newPending.length ≤ s.currentIndex then 0 else s.currentIndex
        showAnswer := false }

/-- Running a whole test session: fold the button presses over the state. -/
def runTest (shuffled : List Flashcard) (moves : List Answer) : TestState :=
  moves.foldl handleAnswer (startTest shuffled)

/-! ## Topic selection (`TopicSelectionStep`, src/index.tsx lines 477-493) -/

/-- The selection state's initial value (src/index.tsx line 87):
`useState<TopicSelection>({ unit: null, topics: [] })`. -/
def initialSelection : TopicSelection := ⟨none, []⟩

/-- Embeds `handleUnitSelect`: clicking a unit deselects it if it was the
selected one, otherwise selects it; both branches set `topics: []`. -/
def handleUnitSelect (sel : TopicSelection) (u : String) : TopicSelection :=
  if sel.unit = some u then ⟨none, []⟩ else ⟨some u, []⟩

/-- Embeds `handleTopicSelect`: toggle the topic in the list
(`filter(t => t !== topicName)` on deselect, append on select); if the new
list would exceed 3 the handler returns early leaving the selection
unchanged; otherwise it commits `{ unit: null, topics: newTopics }`. -/
def handleTopicSelect (sel : TopicSelection) (t : String) : TopicSelection :=
  let newTopics :=
    if sel.topics.contains t then sel.topics.filter (fun x => x != t)
    else sel.topics ++ [t]
  if 3 < newTopics.length then sel else ⟨none, newTopics⟩

/-- A click on either kind of checkbox in the topic-selection step. -/
inductive SelectEvent where
  | unitSelect (u : String)
  | topicSelect (t : String)

/-- One UI event applied to the selection state. -/
def selStep (sel : TopicSelection) (e : SelectEvent) : TopicSelection :=
  match e with
  | .unitSelect u => handleUnitSelect sel u
  | .topicSelect t => handleTopicSelect sel t

/-! ## Markdown-subset renderer (`FormattedContent`, src/index.tsx lines 703-775)

Line-level string tests are embedded as functions on `List Char`
(`String.data`): `leadsWith` is JavaScript `String.prototype.startsWith`,
`trimChars` is `String.prototype.trim`, `splitOnChar` is `split('\n')`. -/

/-- Characters removed by `String.prototype.trim` (the inputs the claims
concern only involve ASCII whitespace). -/
def isJsWs (c : Char) : Bool :=
  c == ' ' || c == '\t' || c == '\n' || c == '\r'

/-- Embeds `s.trim()`: strip whitespace from both ends. -/
def trimChars (cs : List Char) : List Char :=
  ((cs.dropWhile isJsWs).reverse.dropWhile isJsWs).reverse

/-- Embeds `s.startsWith(pat)`. -/
def leadsWith : List Char → List Char → Bool
  | [], _ => true
  | _ :: _, [] => false
  | p :: ps, c :: cs => p == c && leadsWith ps cs

/-- Embeds `content.split('\n')`. -/
def splitOnChar (sep : Char) : List Char → List (List Char)
  | [] => [[]]
  | c :: cs =>
    if c == sep then [] :: splitOnChar sep cs
    else
      match splitOnChar sep cs with
      | [] => [[c]]
      | l :: ls => (c :: l) :: ls

/-- Recognizes and strips the regex `^\d+\.\s` (ordered-list marker): one or
more digits already consumed by the caller side of `olAfterDigits`, then a
period, then one whitespace character; returns the remainder of the line. -/
def olAfterDigits : List Char → Option (List Char)
  | [] => none
  | c :: cs =>
    if c.isDigit then olAfterDigits cs
    else if c == '.' then
      match cs with
      | w :: rest => if isJsWs w then some rest else none
      | [] => none
    else none

/-- Embeds `trimmedLine.match(/^\d+\.\s/)` together with
`trimmedLine.replace(/^\d+\.\s/, '')`: `some rest` when the marker matches,
where `rest` is the line with the marker stripped. -/
def olMarker : List Char → Option (List Char)
  | [] => none
  | c :: cs => if c.isDigit then olAfterDigits cs else none

/-- The block nodes the renderer emits (heading levels 1-3, the two list
kinds, paragraphs, fenced code blocks).  Heading, list-item and paragraph
texts are stored as produced by the line scanner; the inline `formatLine`
pass is embedded separately. -/
inductive Block where
  | h1 (text : String)
  | h2 (text : String)
  | h3 (text : String)
  | bulletList (items : List String)
  | orderedList (items : List String)
  | para (text : String)
  | codeBlock (content : String)
deriving DecidableEq, Repr

/-- The `listType` local of `FormattedContent`: `'ul' | 'ol' | null`. -/
inductive LKind where
  | ul
  | ol
deriving DecidableEq, Repr

/-- The scanner state of `FormattedContent.formatted`: emitted `elements`,
open-list bookkeeping (`listType`, `listItems`), and code-fence bookkeeping
(`isCodeBlock`, `codeContent`). -/
structure RenderSt where
  blocks : List Block
  listType : Option LKind
  listItems : List String
  isCodeBlock : Bool
  codeContent : String
deriving DecidableEq, Repr

/-- The scanner's initial state. -/
def initRenderSt : RenderSt := ⟨[], none, [], false, ""⟩

/-- Append an emitted block node. -/
def pushBlock (st : RenderSt) (b : Block) : RenderSt :=
  { st with blocks := st.blocks ++ [b] }

/-- Embeds `closeList()`: emit the open list only when a list type is set and
the item buffer is non-empty, then clear both. -/
def closeList (st : RenderSt) : RenderSt :=
  match st.listType with
  | some k =>
    if st.listItems.isEmpty then st
    else
      { st with
        blocks := st.blocks ++
          [match k with
           | .ul => Block.bulletList st.listItems
           | .ol => Block.orderedList st.listItems]
        listType := none
        listItems := [] }
  | none => st

/-- Embeds `closeCodeBlock()`: when inside a fence, emit the accumulated
buffer as one code block and reset the fence state. -/
def closeCode (st : RenderSt) : RenderSt :=
  if st.isCodeBlock then
    { st with
      blocks := st.blocks ++ [Block.codeBlock st.codeContent]
      codeContent := ""
      isCodeBlock := false }
  else st

/-- Embeds the body of `lines.forEach((line, index) => ...)`: the fence
toggle is checked first on the trimmed line; inside a fence the raw line plus
a newline is appended to the buffer; outside, the trimmed line is matched
against heading, bullet and ordered-list markers in source order, a non-empty
unmatched line becomes a paragraph (of the untrimmed line, as in the source),
and an empty trimmed line falls through every branch leaving the state
unchanged. -/
def stepLine (st : RenderSt) (line : String) : RenderSt :=
  let t := trimChars line.data
  if leadsWith ['`', '`', '`'] t then
    if st.isCodeBlock then closeCode st
    else { closeList st with isCodeBlock := true }
  else if st.isCodeBlock then
    { st with codeContent := st.codeContent ++ line ++ "\n" }
  else if leadsWith ['#', '#', '#', ' '] t then
    pushBlock (closeList st) (.h3 (String.mk (t.drop 4)))
  else if leadsWith ['#', '#', ' '] t then
    pushBlock (closeList st) (.h2 (String.mk (t.drop 3)))
  else if leadsWith ['#', ' '] t then
    pushBlock (closeList st) (.h1 (String.mk (t.drop 2)))
  else if leadsWith ['*', ' '] t || leadsWith ['-', ' '] t then
    let st1 := if st.listType = some .ul then st else closeList st
    { st1 with listType := some .ul, listItems := st1.listItems ++ [String.mk (t.drop 2)] }
  else
    match olMarker t with
    | some rest =>
      let st1 := if st.listType = some .ol then st else closeList st
      { st1 with listType := some .ol, listItems := st1.listItems ++ [String.mk rest] }
    | none =>
      if t.isEmpty then st
      else pushBlock (closeList st) (.para line)

/-- End-of-input flush: `closeList(); closeCodeBlock();`. -/
def finishRender (st : RenderSt) : List Block :=
  (closeCode (closeList st)).blocks

/-- Render an explicit list of lines. -/
def renderLines (lines : List String) : List Block :=
  finishRender (lines.foldl stepLine initRenderSt)

/-- Embeds `FormattedContent.formatted` end to end:
`content.split('\n')` then the scanner loop then the final flushes. -/
def renderBlocks (content : String) : List Block :=
  renderLines ((splitOnChar '\n' content.data).map String.mk)

/-! ## Inline formatting (`formatLine`, src/index.tsx lines 704-708)

`line.replace(/\*\*(.*?)\*\*/g, '<strong>$1</strong>')` followed by
`line.replace(/\*(.*?)\*/g, '<em>$1</em>')`; the result is assigned as raw
markup through `dangerouslySetInnerHTML`.  For these patterns the
leftmost-match / lazy-group semantics is: find the first delimiter
occurrence, then the next delimiter occurrence after it; no further
delimiter pair means no further match. -/

/-- Split `s` around the first occurrence of `pat`: `some (pre, suf)` with
`s = pre ++ pat ++ suf` and `pat` not occurring earlier, `none` when `pat`
does not occur. -/
def splitFirst (pat : List Char) : List Char → Option (List Char × List Char)
  | [] => if pat.isEmpty then some ([], []) else none
  | c :: cs =>
    if leadsWith pat (c :: cs) then some ([], (c :: cs).drop pat.length)
    else
      match splitFirst pat cs with
      | some (pre, suf) => some (c :: pre, suf)
      | none => none

/-- One global-regex replacement pass `s.replace(new pair of delimiters)`:
repeatedly take the first delimiter pair, wrap the lazily-matched span in
the open/close tags, and continue after it; fuelled by the string length,
which bounds the number of matches. -/
def replaceDelimFuel (pat tagOpen tagClose : List Char) : Nat → List Char → List Char
  | 0, s => s
  | fuel + 1, s =>
    match splitFirst pat s with
    | none => s
    | some (pre, rest) =>
      match splitFirst pat rest with
      | none => s
      | some (mid, rest2) =>
        pre ++ tagOpen ++ mid ++ tagClose ++ replaceDelimFuel pat tagOpen tagClose fuel rest2

/-- A full global replacement pass over `s`. -/
def replaceDelim (pat tagOpen tagClose s : List Char) : List Char :=
  replaceDelimFuel pat tagOpen tagClose s.length s

/-- Embeds `formatLine`: the double-asterisk pass producing strong tags runs
first, then the single-asterisk pass producing em tags runs on its output;
the returned string is handed to `dangerouslySetInnerHTML` verbatim — no
escaping of any other character takes place. -/
def formatLine (line : String) : String :=
  String.mk
    (replaceDelim ['*'] "<em>".data "</em>".data
      (replaceDelim ['*', '*'] "<strong>".data "</strong>".data line.data))

/-! ## Helper lemmas -/

/-- The character-list comparison is total. -/
theorem charListLe_total : ∀ x y : List Char, charListLe x y = true ∨ charListLe y x = true := by
  intro x
  induction x with
  | nil => intro y; left; rfl
  | cons a as ih =>
    intro y
    cases y with
    | nil => right; rfl
    | cons b bs =>
      by_cases h : a.toNat = b.toNat
      · rcases ih bs with h2 | h2
        · left; simp [charListLe, h, h2]
        · right; simp [charListLe, h.symm, h2]
      · rcases Nat.lt_or_ge a.toNat b.toNat with h2 | h2
        · left; simp [charListLe, h, h2]
        · right
          have h3 : b.toNat < a.toNat := by omega
          have h4 : ¬ b.toNat = a.toNat := by omega
          simp [charListLe, h4, h3]

/-- The character-list comparison is transitive. -/
theorem charListLe_trans : ∀ x y z : List Char,
    charListLe x y = true → charListLe y z = true → charListLe x z = true := by
  intro x
  induction x with
  | nil => intro y z _ _; rfl
  | cons a as ih =>
    intro y z hxy hyz
    cases y with
    | nil => simp [charListLe] at hxy
    | cons b bs =>
      cases z with
      | nil => simp [charListLe] at hyz
      | cons c cs =>
        by_cases hab : a.toNat = b.toNat <;> by_cases hbc : b.toNat = c.toNat
        · simp only [charListLe, if_pos hab] at hxy
          simp only [charListLe, if_pos hbc] at hyz
          simp [charListLe, hab.trans hbc, ih bs cs hxy hyz]
        · simp only [charListLe, if_pos hab] at hxy
          simp only [charListLe, if_neg hbc, decide_eq_true_eq] at hyz
          have : ¬ a.toNat = c.toNat := by omega
          simp [charListLe, this]; omega
        · simp only [charListLe, if_neg hab, decide_eq_true_eq] at hxy
          simp only [charListLe, if_pos hbc] at hyz
          have : ¬ a.toNat = c.toNat := by omega
          simp [charListLe, this]; omega
        · simp only [charListLe, if_neg hab, decide_eq_true_eq] at hxy
          simp only [charListLe, if_neg hbc, decide_eq_true_eq] at hyz
          have : ¬ a.toNat = c.toNat := by omega
          simp [charListLe, this]; omega

/-- Characters with equal code points are equal. -/
theorem char_toNat_inj {a b : Char} (h : a.toNat = b.toNat) : a = b := by
  simp only [Char.toNat] at h
  exact Char.eq_of_val_eq (UInt32.toNat.inj h)

/-- The character-list comparison is antisymmetric. -/
theorem charListLe_antisymm : ∀ x y : List Char,
    charListLe x y = true → charListLe y x = true → x = y := by
  intro x
  induction x with
  | nil =>
    intro y _ hyx
    cases y with
    | nil => rfl
    | cons b bs => simp [charListLe] at hyx
  | cons a as ih =>
    intro y hxy hyx
    cases y with
    | nil => simp [charListLe] at hxy
    | cons b bs =>
      by_cases hab : a.toNat = b.toNat
      · simp only [charListLe, if_pos hab] at hxy
        simp only [charListLe, if_pos hab.symm] at hyx
        rw [char_toNat_inj hab, ih bs hxy hyx]
      · simp only [charListLe, if_neg hab, decide_eq_true_eq] at hxy
        have : ¬ b.toNat = a.toNat := fun hh => hab hh.symm
        simp only [charListLe, if_neg this, decide_eq_true_eq] at hyx
        omega

instance : IsTotal String strLe :=
  ⟨fun a b => charListLe_total a.data b.data⟩

instance : IsTrans String strLe :=
  ⟨fun a b c => charListLe_trans a.data b.data c.data⟩

instance : IsAntisymm String strLe := by
  refine ⟨fun a b h1 h2 => ?_⟩
  have h3 := charListLe_antisymm a.data b.data h1 h2
  cases a; cases b
  exact congrArg String.mk h3

/-- `jsSortStrings` returns a permutation of its input. -/
theorem jsSortStrings_perm (l : List String) : (jsSortStrings l).Perm l :=
  List.perm_insertionSort _ l

/-- Sorting is invariant under permutation of the input. -/
theorem jsSortStrings_eq_of_perm {a b : List String} (h : a.Perm b) :
    jsSortStrings a = jsSortStrings b :=
  List.eq_of_perm_of_sorted
    ((jsSortStrings_perm a).trans (h.trans (jsSortStrings_perm b).symm))
    (List.sorted_insertionSort _ a) (List.sorted_insertionSort _ b)

/-- Two string arrays compare equal after sorting exactly when they are
permutations of each other. -/
theorem jsSortStrings_eq_iff {a b : List String} :
    jsSortStrings a = jsSortStrings b ↔ a.Perm b := by
  constructor
  · intro h
    exact (jsSortStrings_perm a).symm.trans (h ▸ jsSortStrings_perm b)
  · exact jsSortStrings_eq_of_perm

/-- Splicing out an in-range index removes exactly one element. -/
theorem removeAt_length {l : List α} {i : Nat} (h : i < l.length) :
    (removeAt l i).length = l.length - 1 := by
  simp only [removeAt, List.length_append, List.length_take, List.length_drop]
  omega

/-- A list is a permutation of its spliced-out element put back in front. -/
theorem perm_getD_removeAt {l : List α} {i : Nat} (h : i < l.length) (d : α) :
    l.Perm (l.getD i d :: removeAt l i) := by
  induction l generalizing i with
  | nil => simp at h
  | cons x xs ih =>
    cases i with
    | zero => simp [removeAt]
    | succ j =>
      have hj : j < xs.length := by simpa using h
      have step : removeAt (x :: xs) (j + 1) = x :: removeAt xs j := by
        simp [removeAt]
      rw [step]
      have hx : (x :: xs).getD (j + 1) d = xs.getD j d := by simp
      rw [hx]
      exact ((ih hj).cons x).trans (List.Perm.swap _ _ _)

/-- Splicing an element in anywhere yields a permutation of consing it. -/
theorem insertAt_perm (l : List α) (i : Nat) (x : α) :
    (insertAt l i x).Perm (x :: l) := by
  have h := @List.perm_middle _ x (l.take i) (l.drop i)
  simpa [insertAt] using h

/-- Inserting always grows the list by one. -/
theorem insertAt_length (l : List α) (i : Nat) (x : α) :
    (insertAt l i x).length = l.length + 1 := by
  simpa using (insertAt_perm l i x).length_eq

/-! ## Quiz grading lemmas -/

/-- Characterization of the grading loop from index `i`: the score counts the
questions whose canonical answers are a permutation of the user's answers,
the incorrect list is the in-order sublist of the others (as mutated by the
in-place sort), and every question comes out with its answer array sorted. -/
theorem gradeFrom_spec (ua : Nat → Option (List String)) (qs : List QuizQuestion) (i : Nat) :
    (gradeFrom ua i qs).score =
      ((List.enumFrom i qs).countP fun p => decide (p.2.answer.Perm ((ua p.1).getD []))) ∧
    (gradeFrom ua i qs).incorrectQuestions =
      (((List.enumFrom i qs).filter fun p => !decide (p.2.answer.Perm ((ua p.1).getD []))).map
        fun p => sortAnswerInPlace p.2) ∧
    (gradeFrom ua i qs).mutatedQuestions = qs.map sortAnswerInPlace := by
  induction qs generalizing i with
  | nil => simp [gradeFrom]
  | cons q rest ih =>
    obtain ⟨ih1, ih2, ih3⟩ := ih (i + 1)
    have hiff : (jsSortStrings q.answer = jsSortStrings ((ua i).getD [])) ↔
        q.answer.Perm ((ua i).getD []) := jsSortStrings_eq_iff
    by_cases hc : q.answer.Perm ((ua i).getD [])
    · rw [← hiff] at hc
      simp only [gradeFrom, if_pos hc, List.enumFrom_cons, List.countP_cons, List.filter_cons]
      rw [hiff] at hc
      simp [hc, ih1, ih2, ih3, sortAnswerInPlace]
    · rw [← hiff] at hc
      simp only [gradeFrom, if_neg hc, List.enumFrom_cons, List.countP_cons, List.filter_cons]
      rw [hiff] at hc
      simp [hc, ih1, ih2, ih3, sortAnswerInPlace]

/-- Grading only depends on the user's answer sets up to permutation. -/
theorem gradeFrom_congr (ua ua2 : Nat → Option (List String))
    (h : ∀ i, ((ua i).getD []).Perm ((ua2 i).getD [])) (qs : List QuizQuestion) (i : Nat) :
    gradeFrom ua i qs = gradeFrom ua2 i qs := by
  induction qs generalizing i with
  | nil => rfl
  | cons q rest ih =>
    simp only [gradeFrom, jsSortStrings_eq_of_perm (h i), ih (i + 1)]

/-- C2: quiz grading sorts each question's canonical and user answer arrays
(a missing user answer graded as the empty set) and compares them exactly and
case-sensitively; the score counts the matching questions and the incorrect
list collects the others in original question order, so correctness per
question is permutation-invariant in the user's answer set, and `["paris"]`
against canonical `["Paris"]` scores 0 and lands in the incorrect list. -/
theorem quiz_grading_spec (quiz : Quiz) (ua ua2 : Nat → Option (List String)) :
    ((gradeQuiz quiz ua).score =
      (quiz.questions.enum.countP fun p => decide (p.2.answer.Perm ((ua p.1).getD []))) ∧
     (gradeQuiz quiz ua).incorrectQuestions =
      ((quiz.questions.enum.filter fun p => !decide (p.2.answer.Perm ((ua p.1).getD []))).map
        fun p => sortAnswerInPlace p.2)) ∧
    ((∀ i, ((ua i).getD []).Perm ((ua2 i).getD [])) → gradeQuiz quiz ua = gradeQuiz quiz ua2) ∧
    gradeQuiz ⟨"Capitals", [⟨"Capital of France?", some ["Paris", "Rome"], ["Paris"],
        .mcq_single, "Paris is the capital."⟩], "swot"⟩ (fun _ => some ["paris"]) =
      ⟨0, [⟨"Capital of France?", some ["Paris", "Rome"], ["Paris"],
        .mcq_single, "Paris is the capital."⟩],
       [⟨"Capital of France?", some ["Paris", "Rome"], ["Paris"],
        .mcq_single, "Paris is the capital."⟩]⟩ := by
  refine ⟨⟨(gradeFrom_spec ua quiz.questions 0).1, ?_⟩, ?_, by decide⟩
  · simpa [List.enum] using (gradeFrom_spec ua quiz.questions 0).2.1
  · intro h
    exact gradeFrom_congr ua ua2 h quiz.questions 0

/-- C2 witness: the theorem applied to a concrete two-option quiz and a
concrete permuted pair of user answer maps. -/
theorem quiz_grading_spec_witness :
    gradeQuiz ⟨"T", [⟨"Pick two", some ["x", "y", "z"], ["x", "y"], .mcq_multiple, "E"⟩], "S"⟩
        (fun _ => some ["y", "x"]) =
      gradeQuiz ⟨"T", [⟨"Pick two", some ["x", "y", "z"], ["x", "y"], .mcq_multiple, "E"⟩], "S"⟩
        (fun _ => some ["x", "y"]) :=
  (quiz_grading_spec
    ⟨"T", [⟨"Pick two", some ["x", "y", "z"], ["x", "y"], .mcq_multiple, "E"⟩], "S"⟩
    (fun _ => some ["y", "x"]) (fun _ => some ["x", "y"])).2.1 (fun i => by decide)

/-- C8: grading is not free of side effects on the quiz — `q.answer.sort()`
sorts each question's answer array in place, so a question generated with
answer array `["b", "a"]` has answer array `["a", "b"]` after grading (title,
SWOT text and all other question fields are unchanged, and the score here is
even a full mark; only the element order of `answer` changes). -/
theorem grading_mutates_quiz :
    gradedQuiz ⟨"T", [⟨"Q", some ["a", "b"], ["b", "a"], .mcq_multiple, "E"⟩], "S"⟩
        (fun _ => some ["a", "b"]) =
      ⟨"T", [⟨"Q", some ["a", "b"], ["a", "b"], .mcq_multiple, "E"⟩], "S"⟩ ∧
    gradedQuiz ⟨"T", [⟨"Q", some ["a", "b"], ["b", "a"], .mcq_multiple, "E"⟩], "S"⟩
        (fun _ => some ["a", "b"]) ≠
      ⟨"T", [⟨"Q", some ["a", "b"], ["b", "a"], .mcq_multiple, "E"⟩], "S"⟩ ∧
    (gradeQuiz ⟨"T", [⟨"Q", some ["a", "b"], ["b", "a"], .mcq_multiple, "E"⟩], "S"⟩
        (fun _ => some ["a", "b"])).score = 1 := by
  refine ⟨by decide, ?_, by decide⟩
  intro h
  exact absurd (congrArg Quiz.questions h) (by decide)

/-- C9: the score and the correct/incorrect breakdown are committed by
`setResults`/`setSubmitted` before the guard and survive every run — but the
suggestions path itself is dead: with a non-empty incorrect list the guard
`incorrectQuestions.length > 0 && ai` evaluates the unbound identifier `ai`
and throws a ReferenceError outside the try/catch, so the secondary request
is never issued and `personalizedSuggestions` never becomes `fallbackMsg`
(it keeps its initial empty value); the concrete conjuncts evaluate the run
at the failing input, a one-question quiz answered incorrectly. -/
theorem remediation_never_issued (quiz : Quiz) (ua : Nat → Option (List String)) :
    ((handleSubmitRun quiz ua).committed.score = (gradeQuiz quiz ua).score ∧
     (handleSubmitRun quiz ua).committed.incorrectQuestions =
       (gradeQuiz quiz ua).incorrectQuestions ∧
     (handleSubmitRun quiz ua).committed.submitted = true ∧
     (handleSubmitRun quiz ua).committed.personalizedSuggestions = "" ∧
     ((handleSubmitRun quiz ua).committed.personalizedSuggestions == fallbackMsg) = false ∧
     (handleSubmitRun quiz ua).suggestionsRequestIssued = false ∧
     (handleSubmitRun quiz ua).threwReferenceError =
       !(gradeQuiz quiz ua).incorrectQuestions.isEmpty) ∧
    handleSubmitRun ⟨"T", [⟨"Q", some ["a", "b"], ["a"], .mcq_single, "E"⟩], "S"⟩
        (fun _ => some ["b"]) =
      ⟨⟨0, [⟨"Q", some ["a", "b"], ["a"], .mcq_single, "E"⟩], true, ""⟩, true, false⟩ :=
  ⟨⟨rfl, rfl, rfl, rfl, rfl, rfl, rfl⟩, by decide⟩

/-! ## Flashcard driver lemmas -/

/-- Any single transition preserves the multiset `cardsToTest ++ masteredCards`,
given the current index is valid (or the pending list is empty, in which case
the test view is replaced by the completion view and no transition fires). -/
theorem handleAnswer_append_perm (s : TestState) (a : Answer)
    (hidx : s.cardsToTest = [] ∨ s.currentIndex < s.cardsToTest.length) :
    ((handleAnswer s a).cardsToTest ++ (handleAnswer s a).masteredCards).Perm
      (s.cardsToTest ++ s.masteredCards) := by
  rcases hidx with h | h
  · simp [handleAnswer, h]
  · have hne : s.cardsToTest.isEmpty = false := by
      cases hl : s.cardsToTest
      · rw [hl] at h; simp at h
      · simp [hl]
    have hperm : s.cardsToTest.Perm
        (s.cardsToTest.getD s.currentIndex default :: removeAt s.cardsToTest s.currentIndex) :=
      perm_getD_removeAt h default
    cases a with
    | knewIt =>
      simp only [handleAnswer, hne, Bool.false_eq_true, if_false]
      refine ((List.Perm.append_left _ (List.perm_append_singleton _ _)).trans
        List.perm_middle).trans ?_
      exact (hperm.append_right _).symm
    | needsReview rand =>
      simp only [handleAnswer, hne, Bool.false_eq_true, if_false]
      refine (((insertAt_perm _ _ _).append_right _).trans ?_)
      exact (hperm.append_right _).symm

/-- After any transition the current index is valid again (unconditionally:
the post-update `if (currentIndex >= cardsToTest.length) currentIndex = 0`
re-establishes it whatever the previous state was). -/
theorem handleAnswer_validIndex (s : TestState) (a : Answer) :
    (handleAnswer s a).cardsToTest = [] ∨
      (handleAnswer s a).currentIndex < (handleAnswer s a).cardsToTest.length := by
  by_cases h : s.cardsToTest.isEmpty
  · rw [List.isEmpty_iff] at h
    left
    simp [handleAnswer, h]
  · have hne : s.cardsToTest.isEmpty = false := by simpa using h
    cases a with
    | knewIt =>
      simp only [handleAnswer, hne, Bool.false_eq_true, if_false]
      rcases Nat.eq_zero_or_pos (removeAt s.cardsToTest s.currentIndex).length with h0 | h0
      · left; exact List.eq_nil_of_length_eq_zero h0
      · right; split
        · exact h0
        · omega
    | needsReview rand =>
      simp only [handleAnswer, hne, Bool.false_eq_true, if_false]
      right
      rw [insertAt_length]
      split
      · omega
      · omega

/-- Invariant of a whole test run: the deck partition is preserved and the
index stays valid. -/
theorem runTest_inv (shuffled : List Flashcard) (moves : List Answer) :
    ((runTest shuffled moves).cardsToTest ++ (runTest shuffled moves).masteredCards).Perm
      shuffled ∧
    ((runTest shuffled moves).cardsToTest = [] ∨
      (runTest shuffled moves).currentIndex < (runTest shuffled moves).cardsToTest.length) := by
  suffices h : ∀ (ms : List Answer) (s : TestState),
      (s.cardsToTest = [] ∨ s.currentIndex < s.cardsToTest.length) →
      ((ms.foldl handleAnswer s).cardsToTest ++ (ms.foldl handleAnswer s).masteredCards).Perm
        (s.cardsToTest ++ s.masteredCards) ∧
      ((ms.foldl handleAnswer s).cardsToTest = [] ∨
        (ms.foldl handleAnswer s).currentIndex < (ms.foldl handleAnswer s).cardsToTest.length) by
    have h0 : (startTest shuffled).cardsToTest = [] ∨
        (startTest shuffled).currentIndex < (startTest shuffled).cardsToTest.length := by
      cases shuffled <;> simp [startTest]
    have := h moves (startTest shuffled) h0
    simpa [runTest, startTest] using this
  intro ms
  induction ms with
  | nil => intro s hs; exact ⟨List.Perm.refl _, hs⟩
  | cons m rest ih =>
    intro s hs
    have h2 := handleAnswer_validIndex s m
    have h3 := ih (handleAnswer s m) h2
    exact ⟨h3.1.trans (handleAnswer_append_perm s m hs), h3.2⟩

/-- C1: starting a test sets the pending list to a permutation of the full
deck with the mastered list empty and the index at 0, and after every
sequence of `markKnown` / `markNeedsReview` transitions the pending and
mastered lists together are still a permutation of the original deck — sizes
add up to N, no card duplicated, none lost. -/
theorem flashcard_partition_invariant (deck shuffled : List Flashcard)
    (hshuffle : shuffled.Perm deck) (moves : List Answer) :
    (startTest shuffled).cardsToTest.Perm deck ∧
    (startTest shuffled).masteredCards = [] ∧
    (startTest shuffled).currentIndex = 0 ∧
    ((runTest shuffled moves).cardsToTest ++ (runTest shuffled moves).masteredCards).Perm deck ∧
    (runTest shuffled moves).cardsToTest.length + (runTest shuffled moves).masteredCards.length
      = deck.length := by
  have h := (runTest_inv shuffled moves).1
  refine ⟨hshuffle, rfl, rfl, h.trans hshuffle, ?_⟩
  have h2 := (h.trans hshuffle).length_eq
  simpa using h2

/-- C1 witness: a two-card deck dealt in swapped order, one card mastered and
one sent back for review. -/
theorem flashcard_partition_invariant_witness :
    (startTest [⟨"q2", "a2"⟩, ⟨"q1", "a1"⟩]).cardsToTest.Perm
      [⟨"q1", "a1"⟩, ⟨"q2", "a2"⟩] ∧
    (startTest [⟨"q2", "a2"⟩, ⟨"q1", "a1"⟩]).masteredCards = [] ∧
    (startTest [⟨"q2", "a2"⟩, ⟨"q1", "a1"⟩]).currentIndex = 0 ∧
    ((runTest [⟨"q2", "a2"⟩, ⟨"q1", "a1"⟩] [.knewIt, .needsReview 0]).cardsToTest ++
      (runTest [⟨"q2", "a2"⟩, ⟨"q1", "a1"⟩] [.knewIt, .needsReview 0]).masteredCards).Perm
      [⟨"q1", "a1"⟩, ⟨"q2", "a2"⟩] ∧
    (runTest [⟨"q2", "a2"⟩, ⟨"q1", "a1"⟩] [.knewIt, .needsReview 0]).cardsToTest.length +
      (runTest [⟨"q2", "a2"⟩, ⟨"q1", "a1"⟩] [.knewIt, .needsReview 0]).masteredCards.length
      = ([⟨"q1", "a1"⟩, ⟨"q2", "a2"⟩] : List Flashcard).length :=
  flashcard_partition_invariant [⟨"q1", "a1"⟩, ⟨"q2", "a2"⟩] [⟨"q2", "a2"⟩, ⟨"q1", "a1"⟩]
    (List.Perm.swap (⟨"q1", "a1"⟩ : Flashcard) (⟨"q2", "a2"⟩ : Flashcard) [])
    [.knewIt, .needsReview 0]

/-- C10: after every transition the current index is a valid index into the
pending list whenever that list is non-empty — both as a single-step fact for
arbitrary states and along every test run — and the reset to 0 already fires
when the old index merely equals the new pending length (the `>=` guard), as
when mastering the last-positioned card. -/
theorem currentIndex_always_in_bounds :
    (∀ (s : TestState) (a : Answer), (handleAnswer s a).cardsToTest ≠ [] →
      (handleAnswer s a).currentIndex < (handleAnswer s a).cardsToTest.length) ∧
    (∀ (shuffled : List Flashcard) (moves : List Answer),
      (runTest shuffled moves).cardsToTest ≠ [] →
      (runTest shuffled moves).currentIndex < (runTest shuffled moves).cardsToTest.length) ∧
    (∀ s : TestState, s.cardsToTest ≠ [] → s.currentIndex + 1 = s.cardsToTest.length →
      (handleAnswer s .knewIt).currentIndex = 0) := by
  refine ⟨?_, ?_, ?_⟩
  · intro s a hne
    rcases handleAnswer_validIndex s a with h | h
    · exact absurd h hne
    · exact h
  · intro shuffled moves hne
    rcases (runTest_inv shuffled moves).2 with h | h
    · exact absurd h hne
    · exact h
  · intro s hne hlast
    have hidx : s.currentIndex < s.cardsToTest.length := by omega
    have hne2 : s.cardsToTest.isEmpty = false := by
      cases hl : s.cardsToTest
      · exact absurd hl hne
      · simp [hl]
    have hlen : (removeAt s.cardsToTest s.currentIndex).length = s.currentIndex := by
      rw [removeAt_length hidx]; omega
    simp [handleAnswer, hne2, hlen]

/-- C10 witness: a single-card deck sent back for review keeps a valid index. -/
theorem currentIndex_always_in_bounds_witness :
    (runTest [⟨"q", "a"⟩] [.needsReview 0]).currentIndex <
      (runTest [⟨"q", "a"⟩] [.needsReview 0]).cardsToTest.length :=
  currentIndex_always_in_bounds.2.1 [⟨"q", "a"⟩] [.needsReview 0] (by decide)

/-- C3 counterexample: when exactly one card is pending, marking it "needs
review" removes it (leaving `len = 0` cards) and reinserts it at index 0,
but the claimed interval `[len/2, len) = [0, 0)` is empty — the index 0 used
by the code lies outside it, so the claim as stated fails for this input. -/
theorem review_reinsertion_cex :
    validRand 0 0 ∧
    reviewInsertIdx 0 0 = 0 ∧
    ¬ reviewInsertIdx 0 0 < 0 ∧
    (handleAnswer (startTest [⟨"q", "a"⟩]) (.needsReview 0)).cardsToTest = [⟨"q", "a"⟩] :=
  ⟨by decide, rfl, by omega, by decide⟩

/-- C3 (amended): marking the current card "needs review" removes it from the
pending list and reinserts it at `len/2 + rand`; whenever at least one card
remains (`len ≥ 1`) this index lies in `[len/2, len)` (integer division), and
every index in that interval is attainable by some admissible random draw;
whenever `len ≥ 2` the index is never 0; the `len = 0` single-card case
reinserts at index 0 into the empty list.  The randomness is modelled
nondeterministically, so only the support of the distribution is stated. -/
theorem review_reinsertion_range (s : TestState) (rand : Nat)
    (hne : s.cardsToTest ≠ [])
    (hidx : s.currentIndex < s.cardsToTest.length)
    (hr : validRand (s.cardsToTest.length - 1) rand) :
    (handleAnswer s (.needsReview rand)).cardsToTest =
      insertAt (removeAt s.cardsToTest s.currentIndex)
        (reviewInsertIdx (s.cardsToTest.length - 1) rand)
        (s.cardsToTest.getD s.currentIndex default) ∧
    (1 ≤ s.cardsToTest.length - 1 →
      (s.cardsToTest.length - 1) / 2 ≤ reviewInsertIdx (s.cardsToTest.length - 1) rand ∧
      reviewInsertIdx (s.cardsToTest.length - 1) rand < s.cardsToTest.length - 1) ∧
    (2 ≤ s.cardsToTest.length - 1 → reviewInsertIdx (s.cardsToTest.length - 1) rand ≠ 0) ∧
    (∀ k, (s.cardsToTest.length - 1) / 2 ≤ k → k < s.cardsToTest.length - 1 →
      ∃ r2, validRand (s.cardsToTest.length - 1) r2 ∧
        reviewInsertIdx (s.cardsToTest.length - 1) r2 = k) := by
  have hne2 : s.cardsToTest.isEmpty = false := by
    cases hl : s.cardsToTest
    · exact absurd hl hne
    · simp [hl]
  have hlen : (removeAt s.cardsToTest s.currentIndex).length = s.cardsToTest.length - 1 :=
    removeAt_length hidx
  unfold validRand at hr
  refine ⟨?_, ?_, ?_, ?_⟩
  · simp [handleAnswer, hne2, hlen]
  · intro h1
    unfold reviewInsertIdx
    omega
  · intro h2
    unfold reviewInsertIdx
    omega
  · intro k hk1 hk2
    exact ⟨k - (s.cardsToTest.length - 1) / 2, by unfold validRand; omega,
      by unfold reviewInsertIdx; omega⟩

/-- C3 witness: a three-card pending deck; the only admissible draw for
`len = 2` puts the reviewed card at index 1 — inside the later half and not
at index 0. -/
theorem review_reinsertion_range_witness :
    (handleAnswer (startTest [⟨"q1", "a1"⟩, ⟨"q2", "a2"⟩, ⟨"q3", "a3"⟩])
        (.needsReview 0)).cardsToTest =
      insertAt (removeAt [⟨"q1", "a1"⟩, ⟨"q2", "a2"⟩, ⟨"q3", "a3"⟩] 0)
        (reviewInsertIdx 2 0) ⟨"q1", "a1"⟩ ∧
    2 / 2 ≤ reviewInsertIdx 2 0 ∧ reviewInsertIdx 2 0 < 2 ∧ reviewInsertIdx 2 0 ≠ 0 := by
  have h := review_reinsertion_range
    (startTest [⟨"q1", "a1"⟩, ⟨"q2", "a2"⟩, ⟨"q3", "a3"⟩]) 0
    (by decide) (by decide) (by decide)
  exact ⟨h.1, (h.2.1 (by decide)).1, (h.2.1 (by decide)).2, h.2.2.1 (by decide)⟩

/-! ## Topic selection -/

/-- C7: selecting any unit clears the topic set; selecting a topic either
leaves the whole selection unchanged (the rejection path) or clears the unit;
a 4th topic on top of 3 selected ones is rejected outright; and along every
event sequence from the initial empty selection the topic count never
exceeds 3. -/
theorem topic_selection_invariant :
    (∀ (sel : TopicSelection) (u : String), (handleUnitSelect sel u).topics = []) ∧
    (∀ (sel : TopicSelection) (t : String),
      handleTopicSelect sel t = sel ∨ (handleTopicSelect sel t).unit = none) ∧
    (∀ (sel : TopicSelection) (t : String), sel.topics.length = 3 →
      sel.topics.contains t = false → handleTopicSelect sel t = sel) ∧
    (∀ events : List SelectEvent,
      (events.foldl selStep initialSelection).topics.length ≤ 3) := by
  have hstep : ∀ (sel : TopicSelection) (e : SelectEvent),
      sel.topics.length ≤ 3 → (selStep sel e).topics.length ≤ 3 := by
    intro sel e hs
    cases e with
    | unitSelect u =>
      show (handleUnitSelect sel u).topics.length ≤ 3
      unfold handleUnitSelect
      split <;> simp
    | topicSelect t =>
      show (handleTopicSelect sel t).topics.length ≤ 3
      unfold handleTopicSelect
      split <;> (dsimp only; split)
      · exact hs
      · next h => simpa using Nat.le_of_not_lt h
      · exact hs
      · next h => simpa using Nat.le_of_not_lt h
  refine ⟨?_, ?_, ?_, ?_⟩
  · intro sel u
    unfold handleUnitSelect
    split <;> rfl
  · intro sel t
    unfold handleTopicSelect
    split <;> (dsimp only; split)
    all_goals try (left; rfl)
    all_goals (right; rfl)
  · intro sel t h3 hc
    unfold handleTopicSelect
    rw [hc]
    simp [h3]
  · intro events
    suffices h : ∀ (es : List SelectEvent) (sel : TopicSelection), sel.topics.length ≤ 3 →
        (es.foldl selStep sel).topics.length ≤ 3 by
      exact h events initialSelection (by simp [initialSelection])
    intro es
    induction es with
    | nil => intro sel hs; exact hs
    | cons e rest ih => intro sel hs; exact ih _ (hstep sel e hs)

/-- C7 witness: a 4th topic on top of `["a", "b", "c"]` is rejected. -/
theorem topic_selection_invariant_witness :
    handleTopicSelect ⟨none, ["a", "b", "c"]⟩ "d" = ⟨none, ["a", "b", "c"]⟩ :=
  topic_selection_invariant.2.2.1 ⟨none, ["a", "b", "c"]⟩ "d" (by decide) (by decide)

/-! ## Renderer lemmas -/

/-- An empty line matches no branch of the scanner (outside a code fence):
the final `else if (trimmedLine)` is falsy, so nothing is emitted and —
contrary to a flush — the open-list state is left exactly as it was. -/
theorem stepLine_empty (st : RenderSt) (h : st.isCodeBlock = false) : stepLine st "" = st := by
  have ht : trimChars ("" : String).data = [] := rfl
  simp [stepLine, ht, leadsWith, olMarker, h]

/-- `closeList` never touches the code-fence flag. -/
theorem closeList_isCodeBlock (st : RenderSt) : (closeList st).isCodeBlock = st.isCodeBlock := by
  unfold closeList
  split
  · split <;> rfl
  · rfl

/-- `closeList` never touches the code buffer. -/
theorem closeList_codeContent (st : RenderSt) : (closeList st).codeContent = st.codeContent := by
  unfold closeList
  split
  · split <;> rfl
  · rfl

/-- C4: the two inline substitution passes run strong-markers-first and the
intended constructs do render as emphasis tags, but the mechanism escapes
nothing — a literal `<script>` element in a paragraph or list-item line
passes through `formatLine` byte-for-byte and is handed to
`dangerouslySetInnerHTML` as live markup, contradicting the claimed
injection safety. -/
theorem formatLine_no_escaping :
    formatLine "<script>alert(1)</script>" = "<script>alert(1)</script>" ∧
    formatLine "**b** and *i*" = "<strong>b</strong> and <em>i</em>" ∧
    formatLine "*a* **b**" = "<em>a</em> <strong>b</strong>" :=
  ⟨by decide, by decide, by decide⟩

/-- C5 counterexample: two bullet lines separated by an empty line render as
ONE merged bullet list (a single block), not as two separate list blocks —
the empty line does not flush the open list. -/
theorem empty_line_merge_cex :
    renderBlocks "- a\n\n- b" = [Block.bulletList ["a", "b"]] ∧
    (renderBlocks "- a\n\n- b").length = 1 :=
  ⟨by decide, by decide⟩

/-- C5 (amended): outside a code fence, a line whose trimmed form is empty
produces no block node and leaves the scanner state — including any open
bullet or numbered list — completely unchanged (it does NOT flush the list),
so an input of the form item line / empty line / item line of the same list
type renders as one single merged list block. -/
theorem empty_line_keeps_list_open (l1 l2 : String) (rest1 rest2 : List Char)
    (h1 : trimChars l1.data = '-' :: ' ' :: rest1)
    (h2 : trimChars l2.data = '-' :: ' ' :: rest2) :
    (∀ st : RenderSt, st.isCodeBlock = false → stepLine st "" = st) ∧
    renderLines [l1, "", l2] = [Block.bulletList [String.mk rest1, String.mk rest2]] := by
  refine ⟨stepLine_empty, ?_⟩
  have sA : stepLine initRenderSt l1 = ⟨[], some .ul, [String.mk rest1], false, ""⟩ := by
    simp only [stepLine]
    rw [h1]
    rfl
  have sB : stepLine (⟨[], some .ul, [String.mk rest1], false, ""⟩ : RenderSt) "" =
      ⟨[], some .ul, [String.mk rest1], false, ""⟩ :=
    stepLine_empty _ rfl
  have sC : stepLine (⟨[], some .ul, [String.mk rest1], false, ""⟩ : RenderSt) l2 =
      ⟨[], some .ul, [String.mk rest1, String.mk rest2], false, ""⟩ := by
    simp only [stepLine]
    rw [h2]
    rfl
  show finishRender (stepLine (stepLine (stepLine initRenderSt l1) "") l2) = _
  rw [sA, sB, sC]
  rfl

/-- C5 witness: the amended theorem applied to the concrete lines
`"- a"` and `"- b"`. -/
theorem empty_line_keeps_list_open_witness :
    renderLines ["- a", "", "- b"] = [Block.bulletList ["a", "b"]] :=
  (empty_line_keeps_list_open "- a" "- b" "a".data "b".data rfl rfl).2

/-- C6: while inside a code fence every line that is not the closing fence —
including would-be heading or list lines — is appended verbatim (plus the
scanner's newline) to the code buffer with no block matching; a fence still
open at end of input emits its accumulated buffer as a code block; and the
concrete fence input around `# not a heading` renders as exactly one code
block holding that literal line (with its terminating newline), never a
heading node. -/
theorem code_fence_semantics :
    (∀ (st : RenderSt) (line : String), st.isCodeBlock = true →
      leadsWith ['`', '`', '`'] (trimChars line.data) = false →
      stepLine st line = { st with codeContent := st.codeContent ++ line ++ "\n" }) ∧
    (∀ st : RenderSt, st.isCodeBlock = true →
      finishRender st = (closeList st).blocks ++ [Block.codeBlock st.codeContent]) ∧
    renderBlocks "```\n# not a heading\n```" = [Block.codeBlock "# not a heading\n"] ∧
    renderBlocks "```\n# not a heading" = [Block.codeBlock "# not a heading\n"] := by
  refine ⟨?_, ?_, by decide, by decide⟩
  · intro st line h1 h2
    simp [stepLine, h1, h2]
  · intro st h
    unfold finishRender closeCode
    rw [closeList_isCodeBlock, h, closeList_codeContent]
    simp

/-- C6 witness: a heading-looking line inside an open fence is appended to
the code buffer instead of producing a heading block. -/
theorem code_fence_semantics_witness :
    stepLine ⟨[], none, [], true, ""⟩ "# x" = ⟨[], none, [], true, "# x\n"⟩ ∧
    finishRender ⟨[], none, [], true, "# x\n"⟩ = [Block.codeBlock "# x\n"] := by
  constructor
  · have h := code_fence_semantics.1 ⟨[], none, [], true, ""⟩ "# x" rfl (by decide)
    exact h
  · have h := code_fence_semantics.2.1 ⟨[], none, [], true, "# x\n"⟩ rfl
    exact h

end LearnSphere
